import Mathlib

/-!
Verification development for the multilingual MQM benchmark core:
the annotation-to-score Converter, the Correlation Engine, the Tier
Summarizer, and the score-range contracts of the metric wrappers.

Modelling conventions:
* pandas DataFrames become lists of records; a table-level column set is
  carried explicitly where column presence matters.
* Python floats become exact rationals (`ℚ`).
* scipy`s `pearsonr` / `spearmanr` and sacrebleu`s sentence scorers are
  external collaborators: they are passed in as function parameters.
* `pandas.DataFrame.sort_values` on a list of keys is a stable
  lexicographic sort; it is modelled by `List.insertionSort`, which is
  stable and produces the same (unique) stably-sorted permutation.
* fallible code (`raise ValueError`) returns `Except String`.
-/

namespace MqmBench

/-! ## Data model -/

/-- One raw span-level MQM annotation row (module `mqmbench.data`),
with the fields required by the Converter.  The optional character
offsets `error_start` / `error_end` are carried but unused by scoring. -/
structure AnnotationRow where
  segment_id : ℕ
  source : String
  hypothesis : String
  reference : String
  lang : String
  error_type : String
  severity : String
  error_start : Option ℕ
  error_end : Option ℕ
deriving DecidableEq

/-- One derived Segment Score row: the Converter`s output unit. -/
structure SegmentScore where
  segment_id : ℕ
  source : String
  hypothesis : String
  reference : String
  lang : String
  num_errors : ℕ
  major_errors : ℕ
  minor_errors : ℕ
  error_penalty : ℚ
  normalized_score : ℚ
  quality_score : ℚ
deriving DecidableEq

/-- One correlation result row of `run_correlation_analysis`
(src/mqmbench/analysis/correlation.py).  The four statistics are
`Option ℚ`: `none` models Python `None` for groups with `n < 3`.
`resource_tier` is the empty string until the engine fills it in,
mirroring the dict returned by `correlate_metric_vs_human` before the
`result["resource_tier"] = ...` assignment. -/
structure CorrRecord where
  lang : String
  metric : String
  n : ℕ
  pearson_r : Option ℚ
  pearson_p : Option ℚ
  spearman_r : Option ℚ
  spearman_p : Option ℚ
  resource_tier : String
deriving DecidableEq

/-- One per-(metric, tier) summary row of `summarize_by_tier`. -/
structure TierRow where
  metric : String
  resource_tier : String
  pearson_r : Option ℚ
  spearman_r : Option ℚ
deriving DecidableEq

/-- One row of the joined segment-score table fed to the Correlation
Engine: its language plus a column-name-indexed family of numeric
values.  Column presence is table-level, carried by `ScoresDF.cols`. -/
structure ScoreRow where
  lang : String
  val : String → ℚ

/-- The joined segment-score DataFrame: the set of column names present
plus the data rows.  `cols` models `df.columns`. -/
structure ScoresDF where
  cols : List String
  rows : List ScoreRow

/-! ## Converter (modelled from the spec)

The repository snapshot carries the Converter`s unit tests
(tests/test_converter.py) but not `mqmbench/data/converter.py` itself,
so the definitions in this section are modelled from the spec. -/

/-- Modelled from the spec: the Severity Weighting Table of the missing
module `mqmbench.data.converter` (spec section 4.1), a fixed mapping
from severity label to non-negative penalty weight with `major` heavier
than `minor`.  The concrete weights 5 and 1 follow the standard MQM
weighting also used by `SEVERITY_PENALTIES` in metrics/gemba.py. -/
def SEVERITY_WEIGHTS : List (String × ℚ) := [("major", 5), ("minor", 1)]

/-- Effectful map over a list in the `Except` monad, stopping at the
first failure: the semantics of a Python `for` loop whose body may
`raise`. -/
def mapExcept {α β : Type} (f : α → Except String β) : List α → Except String (List β)
  | [] => .ok []
  | a :: l =>
    match f a with
    | .error e => .error e
    | .ok b =>
      match mapExcept f l with
      | .error e => .error e
      | .ok bs => .ok (b :: bs)

/-- Modelled from the spec: severity-weight lookup that fails loudly on
an unrecognized label (spec sections 4.1 and 7), with an error message
identifying the unknown value, as asserted by
`test_unknown_severity_raises` (match="Unknown severity"). -/
def severityWeight (sev : String) : Except String ℚ :=
  match SEVERITY_WEIGHTS.lookup sev with
  | some w => .ok w
  | none => .error ("Unknown severity: " ++ sev)

/-- Grouping key of an annotation row: `segment_id` is unique only
within a language batch, so rows are grouped by (`lang`, `segment_id`)
(spec section 4.2). -/
def annKey (r : AnnotationRow) : String × ℕ := (r.lang, r.segment_id)

/-- Modelled from the spec: score one segment group (spec section 4.2,
steps 2-7).  Real error rows are those whose `error_type` is not the
`"no_error"` sentinel; the penalty is the sum of their severity
weights.  The normalization (left open by the spec beyond its boundary
properties) is `normalized_score = -(penalty / hlen)` and
`quality_score = hlen / (hlen + penalty)` with `hlen` the hypothesis
length clamped to at least 1: monotonically decreasing in the penalty,
bounded to [0, 1], equal to 1 exactly at penalty 0, and diluting a
fixed penalty over longer hypotheses. -/
def scoreGroup (first : AnnotationRow) (group : List AnnotationRow) : Except String SegmentScore :=
  let real := group.filter (fun r => decide (r.error_type ≠ "no_error"))
  match mapExcept (fun r => severityWeight r.severity) real with
  | .error e => .error e
  | .ok ws =>
    let penalty : ℚ := ws.sum
    let hlen : ℚ := max 1 (first.hypothesis.length : ℚ)
    .ok
      { segment_id := first.segment_id
        source := first.source
        hypothesis := first.hypothesis
        reference := first.reference
        lang := first.lang
        num_errors := real.length
        major_errors := real.countP (fun r => decide (r.severity = "major"))
        minor_errors := real.countP (fun r => decide (r.severity = "minor"))
        error_penalty := penalty
        normalized_score := -(penalty / hlen)
        quality_score := hlen / (hlen + penalty) }

/-- Modelled from the spec: score the group of one grouping key of the
missing module `mqmbench.data.converter` (spec section 4.2).  Every key
present in the input has a non-empty group, so the `[]` arm is
unreachable from `annotations_to_sentence_scores`. -/
def scoreKey (df : List AnnotationRow) (k : String × ℕ) : Except String SegmentScore :=
  match df.filter (fun r => decide (annKey r = k)) with
  | [] => .error "empty group"
  | first :: rest => scoreGroup first (first :: rest)

/-- Modelled from the spec: top level of `annotations_to_sentence_scores`:
one Segment Score per distinct grouping key, in the effectful map that
aborts on the first unrecognized severity. -/
def annotations_to_sentence_scores (df : List AnnotationRow) : Except String (List SegmentScore) :=
  mapExcept (scoreKey df) ((df.map annKey).dedup)

/-! ## Correlation Engine (src/mqmbench/analysis/correlation.py) -/

/-- The built-in `RESOURCE_TIERS` table of correlation.py. -/
def RESOURCE_TIERS : List (String × List String) :=
  [("high", ["es", "pt"]),
   ("medium", ["th", "hr", "tl", "hy"]),
   ("low", ["ht", "lo", "mh", "nv", "gil", "to"])]

/-- The `lang_to_tier` dict comprehension of `run_correlation_analysis`
followed by `.get(lang, "unknown")`: a flattened (lang, tier)
association where a duplicated language keeps the last binding (dict
overwrite semantics), defaulting to `"unknown"`. -/
def langToTier (tiers : List (String × List String)) (lg : String) : String :=
  match (tiers.flatMap (fun tl => tl.2.map (fun l => (l, tl.1)))).reverse.lookup lg with
  | some t => t
  | none => "unknown"

/-- Function `correlate_metric_vs_human` of correlation.py, parameterized by the
external scipy statistics `P` (pearsonr) and `S` (spearmanr), each
returning an (r, p) pair.  Below 3 observations all four statistics are
`none`; otherwise they come from `P` and `S`. -/
def correlate_metric_vs_human (P S : List ℚ → List ℚ → ℚ × ℚ)
    (human_scores metric_scores : List ℚ) (metric_name lg : String) : CorrRecord :=
  if human_scores.length < 3 then
    { lang := lg, metric := metric_name, n := human_scores.length
      pearson_r := none, pearson_p := none, spearman_r := none, spearman_p := none
      resource_tier := "" }
  else
    let pr := P human_scores metric_scores
    let sr := S human_scores metric_scores
    { lang := lg, metric := metric_name, n := human_scores.length
      pearson_r := some pr.1, pearson_p := some pr.2
      spearman_r := some sr.1, spearman_p := some sr.2
      resource_tier := "" }

/-- Sorted distinct languages of the table: `scores_df.groupby("lang")`
iterates the group keys in ascending order. -/
def langsOf (rows : List ScoreRow) : List String :=
  List.insertionSort (fun a b => a ≤ b) ((rows.map (fun r => r.lang)).dedup)

/-- The `rows` list built by the groupby / metric loops of
`run_correlation_analysis`, before the final `sort_values`: one record
per (language group, requested metric present in the columns), with
`resource_tier` filled in. -/
def correlationRows (P S : List ℚ → List ℚ → ℚ × ℚ) (df : ScoresDF)
    (metric_columns : List String) (human_column : String)
    (tiers : List (String × List String)) : List CorrRecord :=
  (langsOf df.rows).flatMap (fun lg =>
    let group := df.rows.filter (fun r => decide (r.lang = lg))
    let human := group.map (fun r => r.val human_column)
    (metric_columns.filter (fun m => decide (m ∈ df.cols))).map (fun metric =>
      let metricVals := group.map (fun r => r.val metric)
      let result := correlate_metric_vs_human P S human metricVals metric lg
      { result with resource_tier := langToTier tiers lg }))

/-- The three-part sort key of the final
`sort_values(["metric", "resource_tier", "lang"])`. -/
def recKey (r : CorrRecord) : String × String × String := (r.metric, r.resource_tier, r.lang)

/-- Lexicographic order on (metric, resource_tier) pairs. -/
def lex2 (a b : String × String) : Prop :=
  a.1 < b.1 ∨ (a.1 = b.1 ∧ a.2 ≤ b.2)

/-- Lexicographic order on (metric, resource_tier, lang) triples. -/
def lex3 (a b : String × String × String) : Prop :=
  a.1 < b.1 ∨ (a.1 = b.1 ∧ lex2 a.2 b.2)

/-- Row order used by the engine`s final `sort_values`. -/
def leRec (r s : CorrRecord) : Prop := lex3 (recKey r) (recKey s)

instance : DecidableRel lex2 := fun a b => by unfold lex2; exact inferInstance

instance : DecidableRel lex3 := fun a b => by unfold lex3 lex2; exact inferInstance

instance : DecidableRel leRec := fun r s => by unfold leRec lex3 lex2; exact inferInstance

lemma lex2_refl (a : String × String) : lex2 a a := Or.inr ⟨rfl, le_refl _⟩

lemma lex3_refl (a : String × String × String) : lex3 a a := Or.inr ⟨rfl, lex2_refl _⟩

lemma lex2_total (a b : String × String) : lex2 a b ∨ lex2 b a := by
  rcases lt_trichotomy a.1 b.1 with h | h | h
  · exact Or.inl (Or.inl h)
  · rcases le_total a.2 b.2 with h2 | h2
    · exact Or.inl (Or.inr ⟨h, h2⟩)
    · exact Or.inr (Or.inr ⟨h.symm, h2⟩)
  · exact Or.inr (Or.inl h)

lemma lex2_trans {a b c : String × String} (hab : lex2 a b) (hbc : lex2 b c) : lex2 a c := by
  rcases hab with hab | ⟨hab, hab2⟩
  · rcases hbc with hbc | ⟨hbc, _⟩
    · exact Or.inl (lt_trans hab hbc)
    · exact Or.inl (hbc ▸ hab)
  · rcases hbc with hbc | ⟨hbc, hbc2⟩
    · exact Or.inl (hab ▸ hbc)
    · exact Or.inr ⟨hab.trans hbc, le_trans hab2 hbc2⟩

lemma lex3_total (a b : String × String × String) : lex3 a b ∨ lex3 b a := by
  rcases lt_trichotomy a.1 b.1 with h | h | h
  · exact Or.inl (Or.inl h)
  · rcases lex2_total a.2 b.2 with h2 | h2
    · exact Or.inl (Or.inr ⟨h, h2⟩)
    · exact Or.inr (Or.inr ⟨h.symm, h2⟩)
  · exact Or.inr (Or.inl h)

lemma lex3_trans {a b c : String × String × String} (hab : lex3 a b) (hbc : lex3 b c) :
    lex3 a c := by
  rcases hab with hab | ⟨hab, hab2⟩
  · rcases hbc with hbc | ⟨hbc, _⟩
    · exact Or.inl (lt_trans hab hbc)
    · exact Or.inl (hbc ▸ hab)
  · rcases hbc with hbc | ⟨hbc, hbc2⟩
    · exact Or.inl (hab ▸ hbc)
    · exact Or.inr ⟨hab.trans hbc, lex2_trans hab2 hbc2⟩

instance : IsTotal (String × String) lex2 := ⟨lex2_total⟩

instance : IsTrans (String × String) lex2 := ⟨fun _ _ _ => lex2_trans⟩

instance : IsTotal (String × String × String) lex3 := ⟨lex3_total⟩

instance : IsTrans (String × String × String) lex3 := ⟨fun _ _ _ => lex3_trans⟩

instance : IsTotal CorrRecord leRec := ⟨fun r s => lex3_total (recKey r) (recKey s)⟩

instance : IsTrans CorrRecord leRec := ⟨fun _ _ _ hab hbc => lex3_trans hab hbc⟩

/-- Function `run_correlation_analysis` of correlation.py: build one record per
(language, present metric) pair, then sort stably by metric, resource
tier, language (pandas `sort_values` on a key list is a stable
lexicographic sort). -/
def run_correlation_analysis (P S : List ℚ → List ℚ → ℚ × ℚ) (df : ScoresDF)
    (metric_columns : List String) (human_column : String)
    (tiers : List (String × List String)) : List CorrRecord :=
  List.insertionSort leRec (correlationRows P S df metric_columns human_column tiers)

/-! ## Tier Summarizer (src/mqmbench/analysis/correlation.py) -/

/-- Mean of the defined values of an `Option ℚ` column, skipping
`none`: pandas `mean()` with its default `skipna=True`, yielding `none`
(NaN) when no value in the group is defined. -/
def optMean (vals : List (Option ℚ)) : Option ℚ :=
  let ds := vals.filterMap id
  if ds.isEmpty then none else some (ds.sum / (ds.length : ℚ))

/-- Function `summarize_by_tier` of correlation.py:
`groupby(["metric", "resource_tier"])[["pearson_r", "spearman_r"]].mean()`
followed by `reset_index` and a sort on the same two keys — one row per
distinct (metric, resource_tier) pair, in ascending order. -/
def summarize_by_tier (corr : List CorrRecord) : List TierRow :=
  let keys := List.insertionSort lex2 ((corr.map (fun r => (r.metric, r.resource_tier))).dedup)
  keys.map (fun k =>
    let g := corr.filter (fun r => decide (r.metric = k.1 ∧ r.resource_tier = k.2))
    { metric := k.1, resource_tier := k.2
      pearson_r := optMean (g.map (fun r => r.pearson_r))
      spearman_r := optMean (g.map (fun r => r.spearman_r)) })

/-! ## Metric wrappers (src/mqmbench/metrics, src/mqmbench/pipeline.py) -/

/-- The per-penalty conversion applied by `_run_metrics` in pipeline.py
when joining GEMBA results: `1.0 / (1.0 + p)`. -/
def gembaQuality (p : ℚ) : ℚ := 1 / (1 + p)

/-- The `"gemba"` column joined onto the Segment Score table:
`[1.0 / (1.0 + p) for p in raw_penalties]` (pipeline.py). -/
def gembaColumn (raw_penalties : List ℚ) : List ℚ := raw_penalties.map gembaQuality

/-- Function `score` of metrics/bleu.py, parameterized by the external
`sacrebleu.sentence_bleu` scorer `sb` (hypothesis, reference list ↦
score on [0, 100]): iterate `zip(hypotheses, references)` and divide
each sentence score by 100.  `sources` and `lg` are unused, kept for
the uniform wrapper interface. -/
def bleuScore (sb : String → List String → ℚ)
    (sources hypotheses references : List String) (lg : Option String) : List ℚ :=
  (hypotheses.zip references).map (fun hr => sb hr.1 [hr.2] / 100)

/-- Function `score` of metrics/chrf.py, parameterized by the external
`sacrebleu.CHRF(word_order=2).sentence_score` scorer `cs`: same
zip-and-divide shape as BLEU. -/
def chrfScore (cs : String → List String → ℚ)
    (sources hypotheses references : List String) (lg : Option String) : List ℚ :=
  (hypotheses.zip references).map (fun hr => cs hr.1 [hr.2] / 100)

/-- Invariance of a statistic under a joint permutation of the paired
samples: the property of the exact pearsonr / spearmanr statistics that
makes the engine independent of input row order. -/
def StatPermInv (f : List ℚ → List ℚ → ℚ × ℚ) : Prop :=
  ∀ (g g' : List ScoreRow) (u v : ScoreRow → ℚ),
    g.Perm g' → f (g.map u) (g.map v) = f (g'.map u) (g'.map v)

/-! ## Helper lemmas -/

lemma getD_map_rat (f : ℚ → ℚ) (l : List ℚ) (i : ℕ) (h : i < l.length) :
    (l.map f).getD i 0 = f (l.getD i 0) := by
  induction l generalizing i with
  | nil => simp at h
  | cons a t ih =>
    cases i with
    | zero => simp
    | succ j => simpa using ih j (by simpa using h)

lemma getD_zip_map (f : String → String → ℚ) (l1 l2 : List String) (i : ℕ)
    (h1 : i < l1.length) (h2 : i < l2.length) :
    ((l1.zip l2).map (fun hr => f hr.1 hr.2)).getD i 0 = f (l1.getD i "") (l2.getD i "") := by
  induction l1 generalizing l2 i with
  | nil => simp at h1
  | cons a t ih =>
    cases l2 with
    | nil => simp at h2
    | cons b t2 =>
      cases i with
      | zero => simp
      | succ j => simpa using ih t2 j (by simpa using h1) (by simpa using h2)

lemma correlate_lang (P S : List ℚ → List ℚ → ℚ × ℚ) (h m : List ℚ) (mn lg : String) :
    (correlate_metric_vs_human P S h m mn lg).lang = lg := by
  unfold correlate_metric_vs_human; split <;> rfl

lemma correlate_metric (P S : List ℚ → List ℚ → ℚ × ℚ) (h m : List ℚ) (mn lg : String) :
    (correlate_metric_vs_human P S h m mn lg).metric = mn := by
  unfold correlate_metric_vs_human; split <;> rfl

lemma correlate_n (P S : List ℚ → List ℚ → ℚ × ℚ) (h m : List ℚ) (mn lg : String) :
    (correlate_metric_vs_human P S h m mn lg).n = h.length := by
  unfold correlate_metric_vs_human; split <;> rfl

lemma correlate_small (P S : List ℚ → List ℚ → ℚ × ℚ) (h m : List ℚ) (mn lg : String)
    (hlt : h.length < 3) :
    (correlate_metric_vs_human P S h m mn lg).pearson_r = none
    ∧ (correlate_metric_vs_human P S h m mn lg).pearson_p = none
    ∧ (correlate_metric_vs_human P S h m mn lg).spearman_r = none
    ∧ (correlate_metric_vs_human P S h m mn lg).spearman_p = none := by
  unfold correlate_metric_vs_human
  rw [if_pos hlt]
  exact ⟨rfl, rfl, rfl, rfl⟩

/-- Membership in the engine output decomposes into a language group
and a present metric column, with the record`s shape made explicit. -/
lemma mem_correlationRows {P S : List ℚ → List ℚ → ℚ × ℚ} {df : ScoresDF}
    {mcols : List String} {hc : String} {tiers : List (String × List String)}
    {rec : CorrRecord} (hmem : rec ∈ correlationRows P S df mcols hc tiers) :
    ∃ lg ∈ langsOf df.rows, ∃ metric ∈ mcols.filter (fun m => decide (m ∈ df.cols)),
      rec = { correlate_metric_vs_human P S
                ((df.rows.filter (fun r => decide (r.lang = lg))).map (fun r => r.val hc))
                ((df.rows.filter (fun r => decide (r.lang = lg))).map (fun r => r.val metric))
                metric lg
              with resource_tier := langToTier tiers lg } := by
  rw [correlationRows, List.mem_flatMap] at hmem
  obtain ⟨lg, hlg, hin⟩ := hmem
  obtain ⟨metric, hm, heq⟩ := List.mem_map.mp hin
  exact ⟨lg, hlg, metric, hm, heq.symm⟩

/-! ## Claim theorems: Correlation Engine small groups (C1) -/

/-- C1: every record emitted by the Correlation Engine has `n` equal to
the true number of observations in its language group, and whenever
that count is below 3, all four correlation statistics are unset
(`none`) — no correlation value is fabricated for such a group. -/
theorem correlation_small_group (P S : List ℚ → List ℚ → ℚ × ℚ) (df : ScoresDF)
    (mcols : List String) (hc : String) (tiers : List (String × List String))
    (rec : CorrRecord) (hmem : rec ∈ run_correlation_analysis P S df mcols hc tiers) :
    rec.n = (df.rows.filter (fun r => decide (r.lang = rec.lang))).length
    ∧ (rec.n < 3 →
        rec.pearson_r = none ∧ rec.pearson_p = none
        ∧ rec.spearman_r = none ∧ rec.spearman_p = none) := by
  rw [run_correlation_analysis, List.mem_insertionSort] at hmem
  obtain ⟨lg, _, metric, _, heq⟩ := mem_correlationRows hmem
  subst heq
  have hlang : ({ correlate_metric_vs_human P S
        ((df.rows.filter (fun r => decide (r.lang = lg))).map (fun r => r.val hc))
        ((df.rows.filter (fun r => decide (r.lang = lg))).map (fun r => r.val metric))
        metric lg with resource_tier := langToTier tiers lg } : CorrRecord).lang = lg := by
    simp [correlate_lang]
  constructor
  · rw [hlang]
    have hcn := correlate_n P S
      ((df.rows.filter (fun r => decide (r.lang = lg))).map (fun r => r.val hc))
      ((df.rows.filter (fun r => decide (r.lang = lg))).map (fun r => r.val metric))
      metric lg
    simpa using hcn
  · intro hn
    have hn3 : ((df.rows.filter (fun r => decide (r.lang = lg))).map
        (fun r => r.val hc)).length < 3 := by
      have hcn := correlate_n P S
        ((df.rows.filter (fun r => decide (r.lang = lg))).map (fun r => r.val hc))
        ((df.rows.filter (fun r => decide (r.lang = lg))).map (fun r => r.val metric))
        metric lg
      simpa [hcn] using hn
    have hsm := correlate_small P S
      ((df.rows.filter (fun r => decide (r.lang = lg))).map (fun r => r.val hc))
      ((df.rows.filter (fun r => decide (r.lang = lg))).map (fun r => r.val metric))
      metric lg hn3
    simpa using hsm

/-! ## Claim theorems: Tier Summarizer (C4) and output ordering (C5) -/

lemma summarize_keys (corr : List CorrRecord) :
    (summarize_by_tier corr).map (fun t => (t.metric, t.resource_tier))
      = List.insertionSort lex2 ((corr.map (fun r => (r.metric, r.resource_tier))).dedup) := by
  unfold summarize_by_tier
  simp only [List.map_map]
  have hco : ((fun t : TierRow => (t.metric, t.resource_tier)) ∘
      (fun k : String × String =>
        ({ metric := k.1, resource_tier := k.2
           pearson_r := optMean ((corr.filter
             (fun r => decide (r.metric = k.1 ∧ r.resource_tier = k.2))).map
               (fun r => r.pearson_r))
           spearman_r := optMean ((corr.filter
             (fun r => decide (r.metric = k.1 ∧ r.resource_tier = k.2))).map
               (fun r => r.spearman_r)) } : TierRow))) = id := by
    funext k
    exact Prod.mk.eta
  rw [hco, List.map_id]

/-- C4: the Tier Summarizer emits exactly one row per (metric,
resource_tier) pair present in its input, sorted by metric then tier,
and each row`s `pearson_r` / `spearman_r` is the unweighted arithmetic
mean of exactly the defined per-language values of that group — unset
records contribute to neither the numerator nor the denominator, and a
group with no defined value is itself unset. -/
theorem tier_summary_spec (corr : List CorrRecord) :
    ((summarize_by_tier corr).map (fun t => (t.metric, t.resource_tier))).Nodup
    ∧ (∀ k : String × String,
        k ∈ (summarize_by_tier corr).map (fun t => (t.metric, t.resource_tier))
          ↔ k ∈ corr.map (fun r => (r.metric, r.resource_tier)))
    ∧ (∀ t ∈ summarize_by_tier corr,
        t.pearson_r =
          (if ((corr.filter (fun r =>
                decide (r.metric = t.metric ∧ r.resource_tier = t.resource_tier))).filterMap
                  (fun r => r.pearson_r)).isEmpty
           then none
           else some
             (((corr.filter (fun r =>
                 decide (r.metric = t.metric ∧ r.resource_tier = t.resource_tier))).filterMap
                   (fun r => r.pearson_r)).sum
               / (((corr.filter (fun r =>
                 decide (r.metric = t.metric ∧ r.resource_tier = t.resource_tier))).filterMap
                   (fun r => r.pearson_r)).length : ℚ)))
        ∧ t.spearman_r =
          (if ((corr.filter (fun r =>
                decide (r.metric = t.metric ∧ r.resource_tier = t.resource_tier))).filterMap
                  (fun r => r.spearman_r)).isEmpty
           then none
           else some
             (((corr.filter (fun r =>
                 decide (r.metric = t.metric ∧ r.resource_tier = t.resource_tier))).filterMap
                   (fun r => r.spearman_r)).sum
               / (((corr.filter (fun r =>
                 decide (r.metric = t.metric ∧ r.resource_tier = t.resource_tier))).filterMap
                   (fun r => r.spearman_r)).length : ℚ))))
    ∧ ((summarize_by_tier corr).map (fun t => (t.metric, t.resource_tier))).Sorted lex2 := by
  refine ⟨?_, ?_, ?_, ?_⟩
  · rw [summarize_keys]
    exact ((List.perm_insertionSort lex2 _).nodup_iff).mpr (List.nodup_dedup _)
  · intro k
    rw [summarize_keys, List.mem_insertionSort, List.mem_dedup]
  · intro t ht
    unfold summarize_by_tier at ht
    obtain ⟨k, _, heq⟩ := List.mem_map.mp ht
    subst heq
    constructor
    · simp only [optMean, List.filterMap_map]
      rfl
    · simp only [optMean, List.filterMap_map]
      rfl
  · rw [summarize_keys]
    exact List.sorted_insertionSort lex2 _

lemma filter_key_pairwise (l : List CorrRecord) (k : String × String × String) :
    (l.filter (fun r => decide (recKey r = k))).Pairwise leRec := by
  refine List.pairwise_of_forall_mem_list ?_
  intro a ha b hb
  have hka : recKey a = k := by simpa using (List.mem_filter.mp ha).2
  have hkb : recKey b = k := by simpa using (List.mem_filter.mp hb).2
  unfold leRec
  rw [hka, hkb]
  exact lex3_refl k

/-- C5: the engine output is the input row list sorted by metric, then
resource tier, then language — a stable sort: it is a permutation of
the built records, ordered by `leRec`, and rows tied on all three keys
keep their original group order (the filter by any fixed full key is
unchanged by the sort). -/
theorem correlation_output_ordering (P S : List ℚ → List ℚ → ℚ × ℚ) (df : ScoresDF)
    (mcols : List String) (hc : String) (tiers : List (String × List String)) :
    List.Sorted leRec (run_correlation_analysis P S df mcols hc tiers)
    ∧ (run_correlation_analysis P S df mcols hc tiers).Perm
        (correlationRows P S df mcols hc tiers)
    ∧ ∀ k : String × String × String,
        (run_correlation_analysis P S df mcols hc tiers).filter
            (fun r => decide (recKey r = k))
          = (correlationRows P S df mcols hc tiers).filter
            (fun r => decide (recKey r = k)) := by
  unfold run_correlation_analysis
  refine ⟨List.sorted_insertionSort leRec _, List.perm_insertionSort leRec _, ?_⟩
  intro k
  have hpair := filter_key_pairwise (correlationRows P S df mcols hc tiers) k
  have hsub : ((correlationRows P S df mcols hc tiers).filter
      (fun r => decide (recKey r = k))).Sublist
        (List.insertionSort leRec (correlationRows P S df mcols hc tiers)) :=
    List.sublist_insertionSort hpair (List.filter_sublist _)
  have h1 := List.Sublist.filter (fun r => decide (recKey r = k)) hsub
  have hcc : ((correlationRows P S df mcols hc tiers).filter
      (fun r => decide (recKey r = k))).filter (fun r => decide (recKey r = k))
        = (correlationRows P S df mcols hc tiers).filter (fun r => decide (recKey r = k)) :=
    List.filter_eq_self.mpr (fun a ha => (List.mem_filter.mp ha).2)
  rw [hcc] at h1
  have hperm : ((List.insertionSort leRec (correlationRows P S df mcols hc tiers)).filter
      (fun r => decide (recKey r = k))).Perm
        ((correlationRows P S df mcols hc tiers).filter (fun r => decide (recKey r = k))) :=
    (List.perm_insertionSort leRec _).filter _
  exact (h1.eq_of_length hperm.length_eq.symm).symm

/-! ## Claim theorems: record counts (C6) and determinism (C7) -/

lemma countP_flatMap {α β : Type} (p : β → Bool) (l : List α) (f : α → List β) :
    (l.flatMap f).countP p = (l.map (fun a => (f a).countP p)).sum := by
  induction l with
  | nil => simp
  | cons a t ih => simp [List.flatMap_cons, List.countP_append, ih]

lemma countP_eq_of_nodup {α : Type} [DecidableEq α] (L : List α) (hnd : L.Nodup) (m : α) :
    L.countP (fun x => decide (x = m)) = if m ∈ L then 1 else 0 := by
  induction L with
  | nil => simp
  | cons a t ih =>
    rcases List.nodup_cons.mp hnd with ⟨ha, ht⟩
    rw [List.countP_cons]
    by_cases ham : a = m
    · subst ham
      have hmt : a ∉ t := ha
      simp [ih ht, hmt]
    · have hma : ¬ m = a := fun h => ham h.symm
      simp [ih ht, ham, hma]

lemma sum_map_ite_eq (l : String) (L : List String) (hnd : L.Nodup) (c : ℕ) :
    (L.map (fun lg => if lg = l then c else 0)).sum = if l ∈ L then c else 0 := by
  induction L with
  | nil => simp
  | cons a t ih =>
    rcases List.nodup_cons.mp hnd with ⟨ha, ht⟩
    rw [List.map_cons, List.sum_cons]
    by_cases hal : a = l
    · subst hal
      have hat : a ∉ t := ha
      simp [ih ht, hat]
    · have hla : ¬ l = a := fun h => hal h.symm
      simp [hal, ih ht, hla]

lemma langsOf_nodup (rows : List ScoreRow) : (langsOf rows).Nodup :=
  ((List.perm_insertionSort _ _).nodup_iff).mpr (List.nodup_dedup _)

lemma mem_langsOf {rows : List ScoreRow} {l : String} :
    l ∈ langsOf rows ↔ l ∈ rows.map (fun r => r.lang) := by
  unfold langsOf
  rw [List.mem_insertionSort, List.mem_dedup]

/-- C6: the engine emits exactly one record per (language present in
the table, requested metric whose column is present) pair; a requested
metric whose column is absent is silently skipped — it yields no
record at all — provided the requested metric names are distinct. -/
theorem correlation_record_counts (P S : List ℚ → List ℚ → ℚ × ℚ) (df : ScoresDF)
    (mcols : List String) (hc : String) (tiers : List (String × List String))
    (hnd : mcols.Nodup) (l m : String) :
    (run_correlation_analysis P S df mcols hc tiers).countP
        (fun r => decide (r.lang = l ∧ r.metric = m))
      = if l ∈ df.rows.map (fun r => r.lang) ∧ m ∈ mcols ∧ m ∈ df.cols then 1 else 0 := by
  unfold run_correlation_analysis
  rw [(List.perm_insertionSort leRec _).countP_eq]
  unfold correlationRows
  rw [countP_flatMap]
  have hmapeq : (langsOf df.rows).map (fun lg =>
        (((mcols.filter (fun m2 => decide (m2 ∈ df.cols))).map (fun metric =>
          { correlate_metric_vs_human P S
              ((df.rows.filter (fun r => decide (r.lang = lg))).map (fun r => r.val hc))
              ((df.rows.filter (fun r => decide (r.lang = lg))).map (fun r => r.val metric))
              metric lg
            with resource_tier := langToTier tiers lg }))).countP
          (fun r => decide (r.lang = l ∧ r.metric = m)))
      = (langsOf df.rows).map (fun lg =>
          if lg = l then (if m ∈ mcols ∧ m ∈ df.cols then 1 else 0) else 0) := by
    refine List.map_congr_left ?_
    intro lg _
    rw [List.countP_map]
    by_cases hlgl : lg = l
    · subst hlgl
      rw [if_pos rfl]
      have hstep : ((fun r : CorrRecord => decide (r.lang = lg ∧ r.metric = m)) ∘
          (fun metric => ({ correlate_metric_vs_human P S
              ((df.rows.filter (fun r => decide (r.lang = lg))).map (fun r => r.val hc))
              ((df.rows.filter (fun r => decide (r.lang = lg))).map (fun r => r.val metric))
              metric lg
            with resource_tier := langToTier tiers lg } : CorrRecord)))
          = fun metric => decide (metric = m) := by
        funext metric
        simp [Function.comp, correlate_lang, correlate_metric]
      rw [hstep, countP_eq_of_nodup _ (hnd.filter _) m]
      have hmem : m ∈ mcols.filter (fun m2 => decide (m2 ∈ df.cols)) ↔ m ∈ mcols ∧ m ∈ df.cols := by
        simp [List.mem_filter]
      by_cases hmm : m ∈ mcols ∧ m ∈ df.cols
      · rw [if_pos (hmem.mpr hmm), if_pos hmm]
      · rw [if_neg (fun hx => hmm (hmem.mp hx)), if_neg hmm]
    · rw [if_neg hlgl]
      refine List.countP_eq_zero.mpr ?_
      intro metric _
      simp [Function.comp, correlate_lang, correlate_metric, hlgl]
  rw [hmapeq, sum_map_ite_eq l (langsOf df.rows) (langsOf_nodup df.rows)]
  by_cases h1 : l ∈ df.rows.map (fun r => r.lang) <;>
    by_cases h2 : m ∈ mcols ∧ m ∈ df.cols <;>
      simp [h1, h2, mem_langsOf]

lemma langsOf_perm {rows rows' : List ScoreRow} (h : rows.Perm rows') :
    langsOf rows = langsOf rows' := by
  unfold langsOf
  have hperm : (List.insertionSort (fun a b : String => a ≤ b)
        ((rows.map (fun r => r.lang)).dedup)).Perm
      (List.insertionSort (fun a b : String => a ≤ b) ((rows'.map (fun r => r.lang)).dedup)) :=
    (List.perm_insertionSort _ _).trans
      (((h.map _).dedup).trans (List.perm_insertionSort _ _).symm)
  exact List.eq_of_perm_of_sorted hperm
    (List.sorted_insertionSort _ _) (List.sorted_insertionSort _ _)

lemma correlate_perm {P S : List ℚ → List ℚ → ℚ × ℚ}
    (hP : StatPermInv P) (hS : StatPermInv S)
    {g g' : List ScoreRow} (hgg : g.Perm g') (u v : ScoreRow → ℚ) (mn lg : String) :
    correlate_metric_vs_human P S (g.map u) (g.map v) mn lg
      = correlate_metric_vs_human P S (g'.map u) (g'.map v) mn lg := by
  unfold correlate_metric_vs_human
  have hlen : g.length = g'.length := hgg.length_eq
  by_cases hlt : g'.length < 3
  · rw [if_pos (by simp [hlen, hlt]), if_pos (by simp [hlt])]
    simp [hlen]
  · rw [if_neg (by simp [hlen, hlt]), if_neg (by simp [hlt])]
    simp [hP g g' u v hgg, hS g g' u v hgg, hlen]

/-- C7: the Correlation Engine is deterministic — re-running on the
same input yields the same output — and, when the external statistics
are invariant under a joint permutation of the paired samples (as the
exact Pearson and Spearman statistics are), permuting the input rows
of the score table leaves the output unchanged: the output depends on
the input rows only through the documented group and sort keys. -/
theorem correlation_determinism (P S : List ℚ → List ℚ → ℚ × ℚ) (df df' : ScoresDF)
    (mcols : List String) (hc : String) (tiers : List (String × List String))
    (hP : StatPermInv P) (hS : StatPermInv S)
    (hcols : df'.cols = df.cols) (hrows : df'.rows.Perm df.rows) :
    run_correlation_analysis P S df mcols hc tiers
        = run_correlation_analysis P S df mcols hc tiers
    ∧ run_correlation_analysis P S df' mcols hc tiers
        = run_correlation_analysis P S df mcols hc tiers := by
  refine ⟨rfl, ?_⟩
  unfold run_correlation_analysis
  congr 1
  unfold correlationRows
  rw [langsOf_perm hrows, hcols]
  refine List.flatMap_congr ?_
  intro lg _
  refine List.map_congr_left ?_
  intro metric _
  have hgperm : (df'.rows.filter (fun r => decide (r.lang = lg))).Perm
      (df.rows.filter (fun r => decide (r.lang = lg))) := hrows.filter _
  simp only []
  rw [correlate_perm hP hS hgperm (fun r => r.val hc) (fun r => r.val metric) metric lg]

/-! ## Converter lemmas -/

lemma mapExcept_ok_mem {α β : Type} {f : α → Except String β} {l : List α} {out : List β}
    (h : mapExcept f l = .ok out) : ∀ b ∈ out, ∃ a ∈ l, f a = .ok b := by
  induction l generalizing out with
  | nil =>
    rw [mapExcept] at h
    injection h with h
    subst h
    intro b hb
    exact absurd hb (List.not_mem_nil b)
  | cons a t ih =>
    rw [mapExcept] at h
    cases hfa : f a with
    | error e => rw [hfa] at h; exact absurd h (by simp)
    | ok b0 =>
      rw [hfa] at h
      cases hmt : mapExcept f t with
      | error e => rw [hmt] at h; exact absurd h (by simp)
      | ok bs =>
        rw [hmt] at h
        injection h with h
        subst h
        intro b hb
        rcases List.mem_cons.mp hb with hb | hb
        · exact ⟨a, List.mem_cons_self a t, hb ▸ hfa⟩
        · obtain ⟨a2, ha2, hfa2⟩ := ih hmt b hb
          exact ⟨a2, List.mem_cons_of_mem a ha2, hfa2⟩

lemma mapExcept_ok_forall {α β : Type} {f : α → Except String β} {l : List α} {out : List β}
    (h : mapExcept f l = .ok out) : ∀ a ∈ l, ∃ b, f a = .ok b := by
  induction l generalizing out with
  | nil => intro a ha; exact absurd ha (List.not_mem_nil a)
  | cons a t ih =>
    rw [mapExcept] at h
    cases hfa : f a with
    | error e => rw [hfa] at h; exact absurd h (by simp)
    | ok b0 =>
      rw [hfa] at h
      cases hmt : mapExcept f t with
      | error e => rw [hmt] at h; exact absurd h (by simp)
      | ok bs =>
        intro a2 ha2
        rcases List.mem_cons.mp ha2 with ha2 | ha2
        · exact ⟨b0, ha2 ▸ hfa⟩
        · exact ih hmt a2 ha2

lemma mapExcept_ok_length {α β : Type} {f : α → Except String β} {l : List α} {out : List β}
    (h : mapExcept f l = .ok out) : out.length = l.length := by
  induction l generalizing out with
  | nil => rw [mapExcept] at h; injection h with h; subst h; rfl
  | cons a t ih =>
    rw [mapExcept] at h
    cases hfa : f a with
    | error e => rw [hfa] at h; exact absurd h (by simp)
    | ok b0 =>
      rw [hfa] at h
      cases hmt : mapExcept f t with
      | error e => rw [hmt] at h; exact absurd h (by simp)
      | ok bs =>
        rw [hmt] at h
        injection h with h
        subst h
        simpa using ih hmt

lemma mapExcept_error_mem {α β : Type} {f : α → Except String β} {l : List α} {e : String}
    (h : mapExcept f l = .error e) : ∃ a ∈ l, f a = .error e := by
  induction l with
  | nil => rw [mapExcept] at h; exact absurd h (by simp)
  | cons a t ih =>
    rw [mapExcept] at h
    cases hfa : f a with
    | error e0 =>
      rw [hfa] at h
      injection h with h
      exact ⟨a, List.mem_cons_self a t, h ▸ hfa⟩
    | ok b0 =>
      rw [hfa] at h
      cases hmt : mapExcept f t with
      | error e0 =>
        rw [hmt] at h
        injection h with h
        obtain ⟨a2, ha2, hfa2⟩ := ih (h ▸ hmt)
        exact ⟨a2, List.mem_cons_of_mem a ha2, hfa2⟩
      | ok bs => rw [hmt] at h; exact absurd h (by simp)

lemma severityWeight_ok_ge_one {s : String} {w : ℚ} (h : severityWeight s = .ok w) : 1 ≤ w := by
  unfold severityWeight at h
  cases hl : SEVERITY_WEIGHTS.lookup s with
  | none => rw [hl] at h; exact absurd h (by simp)
  | some w0 =>
    rw [hl] at h
    injection h with h
    subst h
    unfold SEVERITY_WEIGHTS at hl
    simp only [List.lookup] at hl
    split at hl
    · injection hl with hl; subst hl; norm_num
    · split at hl
      · injection hl with hl; subst hl; norm_num
      · exact absurd hl (by simp)

lemma severityWeight_error {s e : String} (h : severityWeight s = .error e) :
    SEVERITY_WEIGHTS.lookup s = none ∧ e = "Unknown severity: " ++ s := by
  unfold severityWeight at h
  cases hl : SEVERITY_WEIGHTS.lookup s with
  | none =>
    rw [hl] at h
    injection h with h
    exact ⟨rfl, h.symm⟩
  | some w => rw [hl] at h; exact absurd h (by simp)

lemma scoreGroup_ok {first : AnnotationRow} {group : List AnnotationRow} {seg : SegmentScore}
    (h : scoreGroup first group = .ok seg) :
    ∃ ws, mapExcept (fun r => severityWeight r.severity)
        (group.filter (fun r => decide (r.error_type ≠ "no_error"))) = .ok ws
      ∧ seg.error_penalty = ws.sum
      ∧ seg.num_errors = (group.filter (fun r => decide (r.error_type ≠ "no_error"))).length
      ∧ seg.normalized_score = -(ws.sum / max 1 (first.hypothesis.length : ℚ))
      ∧ seg.quality_score
          = max 1 (first.hypothesis.length : ℚ) / (max 1 (first.hypothesis.length : ℚ) + ws.sum) := by
  unfold scoreGroup at h
  simp only [] at h
  cases hm : mapExcept (fun r => severityWeight r.severity)
      (group.filter (fun r => decide (r.error_type ≠ "no_error"))) with
  | error e => rw [hm] at h; exact absurd h (by simp)
  | ok ws =>
    rw [hm] at h
    injection h with h
    subst h
    exact ⟨ws, rfl, rfl, rfl, rfl, rfl⟩

lemma scoreGroup_error {first : AnnotationRow} {group : List AnnotationRow} {e : String}
    (h : scoreGroup first group = .error e) :
    mapExcept (fun r => severityWeight r.severity)
      (group.filter (fun r => decide (r.error_type ≠ "no_error"))) = .error e := by
  unfold scoreGroup at h
  simp only [] at h
  cases hm : mapExcept (fun r => severityWeight r.severity)
      (group.filter (fun r => decide (r.error_type ≠ "no_error"))) with
  | error e0 => rw [hm] at h; injection h with h; rw [h]
  | ok ws => rw [hm] at h; exact absurd h (by simp)

lemma scoreKey_eq_cons {df : List AnnotationRow} {k : String × ℕ}
    {first : AnnotationRow} {rest : List AnnotationRow}
    (hflt : df.filter (fun r => decide (annKey r = k)) = first :: rest) :
    scoreKey df k = scoreGroup first (first :: rest) := by
  unfold scoreKey
  rw [hflt]

lemma scoreKey_group_ne_nil {df : List AnnotationRow} {k : String × ℕ}
    (hk : k ∈ (df.map annKey).dedup) :
    df.filter (fun r => decide (annKey r = k)) ≠ [] := by
  obtain ⟨rr, hrr, hrrk⟩ := List.mem_map.mp (List.mem_dedup.mp hk)
  intro hnil
  have hmem : rr ∈ df.filter (fun r => decide (annKey r = k)) :=
    List.mem_filter.mpr ⟨hrr, by simp [hrrk]⟩
  rw [hnil] at hmem
  exact absurd hmem (List.not_mem_nil rr)

/-! ## Claim theorems: Converter (C2, C3) -/

/-- C2: every Segment Score row produced by a successful conversion has
`quality_score` in [0, 1], `normalized_score` at most 0, quality
exactly 1 when the error penalty is 0, and quality strictly below 1
whenever the segment carries at least one real (non-sentinel) error. -/
theorem converter_score_bounds (df : List AnnotationRow) (out : List SegmentScore)
    (hok : annotations_to_sentence_scores df = .ok out) (s : SegmentScore) (hs : s ∈ out) :
    0 ≤ s.quality_score ∧ s.quality_score ≤ 1 ∧ s.normalized_score ≤ 0
    ∧ (s.error_penalty = 0 → s.quality_score = 1)
    ∧ (1 ≤ s.num_errors → s.quality_score < 1) := by
  rw [annotations_to_sentence_scores] at hok
  obtain ⟨k, hk, hpk⟩ := mapExcept_ok_mem hok s hs
  cases hflt : df.filter (fun r => decide (annKey r = k)) with
  | nil => exact absurd hflt (scoreKey_group_ne_nil hk)
  | cons first rest =>
    rw [scoreKey_eq_cons hflt] at hpk
    obtain ⟨ws, hws, hpen, hnum, hnorm, hqual⟩ := scoreGroup_ok hpk
    have hwge : ∀ w ∈ ws, (1:ℚ) ≤ w := by
      intro w hw
      obtain ⟨r, _, hr⟩ := mapExcept_ok_mem hws w hw
      exact severityWeight_ok_ge_one hr
    have hsum0 : 0 ≤ ws.sum :=
      List.sum_nonneg (fun w hw => le_trans zero_le_one (hwge w hw))
    have hl1 : (1:ℚ) ≤ max 1 ((first.hypothesis.length : ℚ)) := le_max_left _ _
    have hlpos : (0:ℚ) < max 1 ((first.hypothesis.length : ℚ)) := by linarith
    refine ⟨?_, ?_, ?_, ?_, ?_⟩
    · rw [hqual]
      exact div_nonneg hlpos.le (by linarith)
    · rw [hqual, div_le_one (by linarith)]
      linarith
    · rw [hnorm]
      have hd : 0 ≤ ws.sum / max 1 ((first.hypothesis.length : ℚ)) :=
        div_nonneg hsum0 hlpos.le
      linarith
    · intro hp0
      have hs0 : ws.sum = 0 := hpen.symm.trans hp0
      rw [hqual, hs0, add_zero]
      exact div_self (ne_of_gt hlpos)
    · intro hne
      rw [hnum] at hne
      have hwlen : ws.length
          = ((first :: rest).filter (fun r => decide (r.error_type ≠ "no_error"))).length :=
        mapExcept_ok_length hws
      have hwsne : ws ≠ [] := by
        intro hnil
        rw [hnil] at hwlen
        simp only [List.length_nil] at hwlen
        omega
      have hsumpos : 0 < ws.sum := by
        cases ws with
        | nil => exact absurd rfl hwsne
        | cons w t =>
          have hw1 : (1:ℚ) ≤ w := hwge w (List.mem_cons_self w t)
          have ht0 : 0 ≤ t.sum :=
            List.sum_nonneg (fun x hx => le_trans zero_le_one (hwge x (List.mem_cons_of_mem w hx)))
          rw [List.sum_cons]
          linarith
      rw [hqual, div_lt_one (by linarith)]
      linarith

/-- C3: an annotation row with a real error type and a severity absent
from the weighting table makes the whole conversion fail with an error
message identifying the unrecognized severity value; the `Except`
result carries no partial Segment Score output. -/
theorem converter_unknown_severity (df : List AnnotationRow)
    (hbad : ∃ r ∈ df, r.error_type ≠ "no_error" ∧ SEVERITY_WEIGHTS.lookup r.severity = none) :
    ∃ r ∈ df, r.error_type ≠ "no_error" ∧ SEVERITY_WEIGHTS.lookup r.severity = none
      ∧ annotations_to_sentence_scores df = .error ("Unknown severity: " ++ r.severity) := by
  obtain ⟨r0, hr0, ht0, hl0⟩ := hbad
  cases hres : annotations_to_sentence_scores df with
  | ok out =>
    exfalso
    rw [annotations_to_sentence_scores] at hres
    have hkey : annKey r0 ∈ (df.map annKey).dedup :=
      List.mem_dedup.mpr (List.mem_map_of_mem annKey hr0)
    obtain ⟨v, hv⟩ := mapExcept_ok_forall hres (annKey r0) hkey
    cases hflt : df.filter (fun r => decide (annKey r = annKey r0)) with
    | nil => exact absurd hflt (scoreKey_group_ne_nil hkey)
    | cons first rest =>
      rw [scoreKey_eq_cons hflt] at hv
      obtain ⟨ws, hws, _⟩ := scoreGroup_ok hv
      have hrf : r0 ∈ df.filter (fun r => decide (annKey r = annKey r0)) :=
        List.mem_filter.mpr ⟨hr0, by simp⟩
      have hreal : r0 ∈ (first :: rest).filter (fun r => decide (r.error_type ≠ "no_error")) :=
        List.mem_filter.mpr ⟨hflt ▸ hrf, by simp [ht0]⟩
      obtain ⟨w, hw⟩ := mapExcept_ok_forall hws r0 hreal
      unfold severityWeight at hw
      rw [hl0] at hw
      exact absurd hw (by simp)
  | error e =>
    rw [annotations_to_sentence_scores] at hres
    obtain ⟨k, hk, hpk⟩ := mapExcept_error_mem hres
    cases hflt : df.filter (fun r => decide (annKey r = k)) with
    | nil => exact absurd hflt (scoreKey_group_ne_nil hk)
    | cons first rest =>
      rw [scoreKey_eq_cons hflt] at hpk
      have hinner := scoreGroup_error hpk
      obtain ⟨rr, hrr, hrre⟩ := mapExcept_error_mem hinner
      obtain ⟨hrrlook, hrrmsg⟩ := severityWeight_error hrre
      have hrrgrp : rr ∈ first :: rest := (List.mem_filter.mp hrr).1
      have hrrdf : rr ∈ df := by
        have : rr ∈ df.filter (fun r => decide (annKey r = k)) := hflt ▸ hrrgrp
        exact (List.mem_filter.mp this).1
      have hrrty : rr.error_type ≠ "no_error" := by
        have := (List.mem_filter.mp hrr).2
        simpa using this
      refine ⟨rr, hrrdf, hrrty, hrrlook, ?_⟩
      rw [hrrmsg]

/-! ## Claim theorems: metric wrappers (C8, C9, C10) -/

/-- C8: the GEMBA penalties are joined as `1 / (1 + p)`: each joined
value equals `gembaQuality p`, lies in (0, 1], equals 1 exactly when
the penalty is 0, and the conversion is strictly decreasing in the
penalty. -/
theorem gemba_join_spec (ps : List ℚ) (hp : ∀ p ∈ ps, 0 ≤ p) :
    (gembaColumn ps).length = ps.length
    ∧ (∀ i, i < ps.length → (gembaColumn ps).getD i 0 = gembaQuality (ps.getD i 0))
    ∧ (∀ p ∈ ps, 0 < gembaQuality p ∧ gembaQuality p ≤ 1 ∧ (gembaQuality p = 1 ↔ p = 0))
    ∧ (∀ p q : ℚ, 0 ≤ p → p < q → gembaQuality q < gembaQuality p) := by
  refine ⟨by simp [gembaColumn], fun i hi => getD_map_rat gembaQuality ps i hi, ?_, ?_⟩
  · intro p hmem
    have hp0 : 0 ≤ p := hp p hmem
    have hpos : (0:ℚ) < 1 + p := by linarith
    refine ⟨?_, ?_, ?_⟩
    · exact div_pos one_pos hpos
    · rw [gembaQuality, div_le_one hpos]; linarith
    · rw [gembaQuality, div_eq_one_iff_eq (ne_of_gt hpos)]
      constructor
      · intro h; linarith
      · intro h; rw [h]; ring
  · intro p q hp0 hpq
    have h1 : (0:ℚ) < 1 + p := by linarith
    have h2 : (1:ℚ) + p < 1 + q := by linarith
    exact one_div_lt_one_div_of_lt h1 h2

/-- C9: for aligned hypothesis/reference lists, the BLEU and ChrF++
wrappers return one score per input triple, in input order, each equal
to the sentence-level sacrebleu score divided by 100 and hence in
[0, 1] when the sentence scorer stays on [0, 100]. -/
theorem bleu_chrf_spec (sb cs : String → List String → ℚ)
    (sources hypotheses references : List String) (lg : Option String)
    (hlen : hypotheses.length = references.length)
    (hsb : ∀ h r, 0 ≤ sb h r ∧ sb h r ≤ 100)
    (hcs : ∀ h r, 0 ≤ cs h r ∧ cs h r ≤ 100) :
    (bleuScore sb sources hypotheses references lg).length = hypotheses.length
    ∧ (chrfScore cs sources hypotheses references lg).length = hypotheses.length
    ∧ (∀ i, i < hypotheses.length →
        (bleuScore sb sources hypotheses references lg).getD i 0
          = sb (hypotheses.getD i "") [references.getD i ""] / 100
        ∧ (chrfScore cs sources hypotheses references lg).getD i 0
          = cs (hypotheses.getD i "") [references.getD i ""] / 100)
    ∧ (∀ x ∈ bleuScore sb sources hypotheses references lg, 0 ≤ x ∧ x ≤ 1)
    ∧ (∀ x ∈ chrfScore cs sources hypotheses references lg, 0 ≤ x ∧ x ≤ 1) := by
  refine ⟨by simp [bleuScore, hlen], by simp [chrfScore, hlen], ?_, ?_, ?_⟩
  · intro i hi
    constructor
    · exact getD_zip_map (fun h r => sb h [r] / 100) hypotheses references i hi (hlen ▸ hi)
    · exact getD_zip_map (fun h r => cs h [r] / 100) hypotheses references i hi (hlen ▸ hi)
  · intro x hx
    obtain ⟨hr, _, hxeq⟩ := List.mem_map.mp hx
    subst hxeq
    refine ⟨div_nonneg (hsb hr.1 [hr.2]).1 (by norm_num), ?_⟩
    rw [div_le_one (by norm_num : (0:ℚ) < 100)]
    exact (hsb hr.1 [hr.2]).2
  · intro x hx
    obtain ⟨hr, _, hxeq⟩ := List.mem_map.mp hx
    subst hxeq
    refine ⟨div_nonneg (hcs hr.1 [hr.2]).1 (by norm_num), ?_⟩
    rw [div_le_one (by norm_num : (0:ℚ) < 100)]
    exact (hcs hr.1 [hr.2]).2

/-- C10: on hypothesis/reference lists of unequal length, the BLEU and
ChrF++ wrappers raise no error: they return scores for exactly the
first `min` pairs, silently dropping the excess entries (Python `zip`
truncation). -/
theorem bleu_chrf_truncate (sb cs : String → List String → ℚ)
    (sources hypotheses references : List String) (lg : Option String) :
    (bleuScore sb sources hypotheses references lg).length
      = min hypotheses.length references.length
    ∧ (chrfScore cs sources hypotheses references lg).length
      = min hypotheses.length references.length
    ∧ (∀ i, i < min hypotheses.length references.length →
        (bleuScore sb sources hypotheses references lg).getD i 0
          = sb (hypotheses.getD i "") [references.getD i ""] / 100
        ∧ (chrfScore cs sources hypotheses references lg).getD i 0
          = cs (hypotheses.getD i "") [references.getD i ""] / 100) := by
  refine ⟨by simp [bleuScore], by simp [chrfScore], ?_⟩
  intro i hi
  rw [lt_min_iff] at hi
  constructor
  · exact getD_zip_map (fun h r => sb h [r] / 100) hypotheses references i hi.1 hi.2
  · exact getD_zip_map (fun h r => cs h [r] / 100) hypotheses references i hi.1 hi.2

/-! ## Concrete witnesses -/

/-- Degenerate statistic standing in for scipy in concrete runs. -/
def statZero : List ℚ → List ℚ → ℚ × ℚ := fun _ _ => (0, 0)

/-- Constant sentence scorer standing in for sacrebleu in concrete runs. -/
def sbConst : String → List String → ℚ := fun _ _ => 50

def sampleDF : ScoresDF :=
  { cols := ["quality_score", "bleu"], rows := [{ lang := "es", val := fun _ => 0 }] }

def sampleRec : CorrRecord :=
  { lang := "es", metric := "bleu", n := 1, pearson_r := none, pearson_p := none
    spearman_r := none, spearman_p := none, resource_tier := "high" }

theorem correlation_small_group_witness :
    sampleRec.n = (sampleDF.rows.filter (fun r => decide (r.lang = sampleRec.lang))).length
    ∧ sampleRec.pearson_r = none ∧ sampleRec.pearson_p = none
    ∧ sampleRec.spearman_r = none ∧ sampleRec.spearman_p = none := by
  have h := correlation_small_group statZero statZero sampleDF ["bleu"] "quality_score"
    RESOURCE_TIERS sampleRec (by decide)
  exact ⟨h.1, h.2 (by decide)⟩

def sampleAnn : List AnnotationRow :=
  [{ segment_id := 0, source := "src", hypothesis := "hola", reference := "ref", lang := "es"
     error_type := "grammar", severity := "minor", error_start := none, error_end := none }]

def sampleSeg : SegmentScore :=
  { segment_id := 0, source := "src", hypothesis := "hola", reference := "ref", lang := "es"
    num_errors := 1, major_errors := 0, minor_errors := 1, error_penalty := 1
    normalized_score := -(1/4), quality_score := 4/5 }

lemma sample_converter_eval : annotations_to_sentence_scores sampleAnn = .ok [sampleSeg] := by
  have hred : annotations_to_sentence_scores sampleAnn
      = .ok [{ segment_id := 0, source := "src", hypothesis := "hola", reference := "ref"
               lang := "es", num_errors := 1, major_errors := 0, minor_errors := 1
               error_penalty := List.sum [(1:ℚ)]
               normalized_score := -(List.sum [(1:ℚ)] / max 1 (("hola".length : ℚ)))
               quality_score := max 1 (("hola".length : ℚ))
                 / (max 1 (("hola".length : ℚ)) + List.sum [(1:ℚ)]) }] := rfl
  rw [hred]
  have hlen : "hola".length = 4 := rfl
  simp only [Except.ok.injEq, List.cons.injEq, SegmentScore.mk.injEq, sampleSeg, hlen,
    List.sum_cons, List.sum_nil, and_true, true_and]
  norm_num

theorem converter_score_bounds_witness :
    sampleSeg.quality_score < 1 ∧ 0 ≤ sampleSeg.quality_score
    ∧ sampleSeg.quality_score ≤ 1 ∧ sampleSeg.normalized_score ≤ 0 := by
  have h := converter_score_bounds sampleAnn [sampleSeg] sample_converter_eval sampleSeg
    (List.mem_singleton_self sampleSeg)
  exact ⟨h.2.2.2.2 (by decide), h.1, h.2.1, h.2.2.1⟩

def badRow : AnnotationRow :=
  { segment_id := 0, source := "src", hypothesis := "h", reference := "ref", lang := "es"
    error_type := "grammar", severity := "critical", error_start := none, error_end := none }

theorem converter_unknown_severity_witness :
    annotations_to_sentence_scores [badRow] = .error ("Unknown severity: " ++ "critical") := by
  obtain ⟨r, hr, -, -, herr⟩ := converter_unknown_severity [badRow]
    ⟨badRow, List.mem_singleton_self badRow, by decide, by decide⟩
  have hr1 : r = badRow := List.mem_singleton.mp hr
  rw [hr1] at herr
  exact herr

def sampleCorr : List CorrRecord :=
  [{ lang := "es", metric := "bleu", n := 2, pearson_r := none, pearson_p := none
     spearman_r := none, spearman_p := none, resource_tier := "high" }]

theorem tier_summary_spec_witness :
    ((summarize_by_tier sampleCorr).map (fun t => (t.metric, t.resource_tier))).Nodup
    ∧ ("bleu", "high") ∈ (summarize_by_tier sampleCorr).map
        (fun t => (t.metric, t.resource_tier)) := by
  have h := tier_summary_spec sampleCorr
  exact ⟨h.1, (h.2.1 ("bleu", "high")).mpr (by decide)⟩

theorem correlation_record_counts_witness :
    (run_correlation_analysis statZero statZero sampleDF ["bleu"] "quality_score"
        RESOURCE_TIERS).countP (fun r => decide (r.lang = "es" ∧ r.metric = "bleu"))
      = if ("es" ∈ sampleDF.rows.map (fun r => r.lang)
            ∧ "bleu" ∈ ["bleu"] ∧ "bleu" ∈ sampleDF.cols) then 1 else 0 :=
  correlation_record_counts statZero statZero sampleDF ["bleu"] "quality_score"
    RESOURCE_TIERS (by decide) "es" "bleu"

def rowES : ScoreRow := { lang := "es", val := fun _ => 0 }

def rowPT : ScoreRow := { lang := "pt", val := fun _ => 1 }

def dfA : ScoresDF := { cols := ["quality_score", "bleu"], rows := [rowES, rowPT] }

def dfB : ScoresDF := { cols := ["quality_score", "bleu"], rows := [rowPT, rowES] }

theorem correlation_determinism_witness :
    run_correlation_analysis statZero statZero dfB ["bleu"] "quality_score" RESOURCE_TIERS
      = run_correlation_analysis statZero statZero dfA ["bleu"] "quality_score" RESOURCE_TIERS := by
  have h := correlation_determinism statZero statZero dfA dfB ["bleu"] "quality_score"
    RESOURCE_TIERS (fun _ _ _ _ _ => rfl) (fun _ _ _ _ _ => rfl) rfl
    (List.Perm.swap rowES rowPT [])
  exact h.2

theorem gemba_join_spec_witness :
    (gembaColumn [0, 1]).length = 2 ∧ 0 < gembaQuality 1 ∧ gembaQuality 0 = 1 := by
  have h := gemba_join_spec [0, 1] (by intro p hp; fin_cases hp <;> norm_num)
  have hb := h.2.2.1 1 (by simp)
  have hz := h.2.2.1 0 (by simp)
  exact ⟨h.1.trans rfl, hb.1, (hz.2.2).mpr rfl⟩

theorem bleu_chrf_spec_witness :
    (bleuScore sbConst ["s"] ["h"] ["r"] none).length = 1
    ∧ (chrfScore sbConst ["s"] ["h"] ["r"] none).length = 1
    ∧ (bleuScore sbConst ["s"] ["h"] ["r"] none).getD 0 0 = sbConst "h" ["r"] / 100 := by
  have h := bleu_chrf_spec sbConst sbConst ["s"] ["h"] ["r"] none rfl
    (fun a b => by norm_num [sbConst]) (fun a b => by norm_num [sbConst])
  exact ⟨h.1, h.2.1, (h.2.2.1 0 (by norm_num)).1⟩

theorem bleu_chrf_truncate_witness :
    (bleuScore sbConst ["s1", "s2"] ["h1", "h2"] ["r1"] none).length = 1
    ∧ (chrfScore sbConst ["s1", "s2"] ["h1", "h2"] ["r1"] none).length = 1 := by
  have h := bleu_chrf_truncate sbConst sbConst ["s1", "s2"] ["h1", "h2"] ["r1"] none
  exact ⟨h.1.trans rfl, h.2.1.trans rfl⟩

end MqmBench
